import Mathlib

/-!
Verification of the HTTP/1.1 io-uring dispatcher of this repository
(`src/http/src/h1/dispatcher_uring.rs`, `src/http/src/h1/proto/encode.rs`,
`src/http/src/config.rs`) against its natural-language specification.

Byte buffers are modelled as `List Char` (the sources only manipulate
ASCII bytes in the parts under study).  Rust `usize` arithmetic is `Nat`
(no overflow is reachable at the buffer sizes involved).  Fallible
operations return `Except`/`Option`.  Asynchronous operations are
modelled as explicit state machines driven by oracles: a list of
transport-completion events stands for the sequence of results the
io-uring runtime would deliver.
-/

abbrev Bytes := List Char

/-- IO error kinds observed by the dispatcher.  `readBufLimit` models the
`io::Error::new(Other, msg)` built when `READ_BUF_LIMIT` is reached, keeping
the two numbers the message reports. -/
inductive IoErr where
  | writeZero
  | unexpectedEof
  | readBufLimit (limit len : Nat)
  | osErr (code : Nat)
deriving DecidableEq, Repr

/-- Poll result of a future, mirroring `core::task::Poll`. -/
inductive PollRes (α : Type) where
  | ready (a : α)
  | pending
deriving DecidableEq, Repr

/-! ## Compile-time configuration (`src/http/src/config.rs`) -/

/-- From `config.rs`: `pub const DEFAULT_READ_BUF_LIMIT: usize = 1024 * 1024;` -/
def DEFAULT_READ_BUF_LIMIT : Nat := 1024 * 1024

/-- From `config.rs`: `pub const DEFAULT_WRITE_BUF_LIMIT: usize = 8192 + 4096 * 100;` -/
def DEFAULT_WRITE_BUF_LIMIT : Nat := 8192 + 4096 * 100

/-- From `config.rs`: `pub const DEFAULT_HEADER_LIMIT: usize = 64;` -/
def DEFAULT_HEADER_LIMIT : Nat := 64

/-! ## The Notify rendezvous (`dispatcher_uring.rs`, `Notify` / `Notifier`)

`Inner<V> { waker: Option<Waker>, val: Option<V> }` lives in an
`Rc<RefCell<..>>`; the waker is modelled as `Option Unit` (installed or
not) and the `Rc` strong count is carried explicitly in the state. -/

structure NotifyInner (T : Type) where
  waker : Option Unit
  val : Option T
deriving DecidableEq, Repr

structure NotifyState (T : Type) where
  strongCount : Nat
  inner : NotifyInner T
deriving DecidableEq, Repr

/-- The fresh rendezvous built by `Notify::new` once `Notify::notifier` has
been called: two strong references (waiter plus producer), no value, no
waker. -/
def NotifyState.fresh (T : Type) : NotifyState T :=
  { strongCount := 2, inner := { waker := none, val := none } }

/-- One poll of the future inside `Notify::wait`: take the value if
deposited; otherwise report a gone producer when the strong count is 1;
otherwise install the current waker and stay pending.  Returns the poll
outcome together with the updated shared state. -/
def notifyWaitPoll {T : Type} (st : NotifyState T) : PollRes (Option T) × NotifyState T :=
  match st.inner.val with
  | some v => (.ready (some v), { st with inner := { st.inner with val := none } })
  | none =>
    if st.strongCount = 1 then
      (.ready none, st)
    else
      (.pending, { st with inner := { st.inner with waker := some () } })

/-- `Notifier::notify`: deposit the value into the shared cell. -/
def notifierNotify {T : Type} (v : T) (st : NotifyState T) : NotifyState T :=
  { st with inner := { st.inner with val := some v } }

/-- `Drop for Notifier`: take and wake the waker (waking is invisible in
this state-only model beyond clearing the slot), and the `Rc` strong count
drops by one as the producer's reference goes away. -/
def notifierDrop {T : Type} (st : NotifyState T) : NotifyState T :=
  { strongCount := st.strongCount - 1, inner := { waker := none, val := st.inner.val } }

/-! ## `write_all` and `WriteBuf::write_io` (`dispatcher_uring.rs`)

The transport's successive `write` completions are an oracle list: entry
`Except.ok m` means the submitted slice completed with `m` bytes written,
`Except.error e` a failed submission.  `write_all` tracks only the byte
counts (`n` against `buf.bytes_init()`); the bytes themselves are never
inspected by the loop.  The result is `none` when the oracle is too short
to decide the loop. -/

inductive WriteAllRes where
  | ok
  | err (e : IoErr)
deriving DecidableEq, Repr

/-- The `write_all` loop: while `n < len`, submit the remaining slice; a
completion of `Ok(0)` aborts with `WriteZero`, `Ok(m)` advances `n` by `m`,
an error aborts with that error.  Returns the outcome and the final `n`. -/
def writeAll (len : Nat) : Nat → List (Except IoErr Nat) → Option (WriteAllRes × Nat)
  | n, oracle =>
    if n < len then
      match oracle with
      | [] => none
      | .ok 0 :: _ => some (.err .writeZero, n)
      | .ok (m + 1) :: rest => writeAll len (n + (m + 1)) rest
      | .error e :: _ => some (.err e, n)
    else
      some (.ok, n)

/-- `WriteBuf::write_io`: run `write_all` on the whole buffer, then clear
the buffer and put it back whatever the outcome.  Returns the outcome and
the buffer contents afterwards. -/
def writeBufDrain (buf : Bytes) (oracle : List (Except IoErr Nat)) :
    Option (WriteAllRes × Bytes) :=
  match writeAll buf.length 0 oracle with
  | none => none
  | some (res, _) => some (res, [])

/-! ## TransferCoding (`h1/proto/codec.rs`, not present under `src/`) -/

/-- Result of `TransferCoding::decode`, as consumed by
`dispatcher_uring.rs` (`Ok`, `Err`, `InsufficientData`, and everything else
treated as end of stream). -/
inductive ChunkResult where
  | ok (bytes : Bytes)
  | err (e : IoErr)
  | insufficientData
  | eofRes
deriving DecidableEq, Repr

/-- Modelled from the spec: the chunked-decoder sub-state of
`TransferCoding` (§3 "TransferCoding state"; `codec.rs` is not under
`src/`): at a chunk-size line, inside chunk data, at the CRLF closing a
chunk, or discarding trailer lines after the `0` chunk. -/
inductive ChunkState where
  | size
  | data (remaining : Nat)
  | dataEnd
  | trailer
deriving DecidableEq, Repr

/-- Modelled from the spec: the `TransferCoding` tagged variant
`\x7bEof, Length(remaining), Chunked(ChunkState), Upgrade, PlainEof\x7d`
(§3; `codec.rs` is not under `src/`).  The chunked state is split into its
decode side (`decodeChunked`) and the stateless encode side
(`encodeChunked`), because `encode.rs` — which is in `src/` — constructs
the latter through `TransferCoding::encode_chunked()`. -/
inductive TransferCoding where
  | eof
  | length (remaining : Nat)
  | decodeChunked (cs : ChunkState)
  | encodeChunked
  | upgrade
  | plainEof
deriving DecidableEq, Repr

/-- Modelled from the spec: `is_eof()` is true only when no more bytes are
expected (§3). -/
def TransferCoding.is_eof : TransferCoding → Bool
  | .eof | .plainEof => true
  | _ => false

/-- Split a byte buffer at the first CRLF, returning the line before it and
the remainder after it. -/
def takeLine : Bytes → Option (Bytes × Bytes)
  | [] => none
  | c :: rest =>
    if c = '\r' ∧ rest.head? = some '\n' then some ([], rest.tail)
    else (takeLine rest).map fun p => (c :: p.1, p.2)

theorem takeLine_rest_lt (buf : Bytes) : ∀ line rest,
    takeLine buf = some (line, rest) → rest.length < buf.length := by
  induction buf with
  | nil => intro line rest h; cases h
  | cons c cs ih =>
    intro line rest h
    rw [takeLine] at h
    split at h
    · simp only [Option.some.injEq, Prod.mk.injEq] at h
      obtain ⟨-, h2⟩ := h
      subst h2
      simp [List.length_tail]
      omega
    · cases htl : takeLine cs with
      | none => rw [htl] at h; cases h
      | some p =>
        rw [htl] at h
        simp only [Option.map_some', Option.some.injEq, Prod.mk.injEq] at h
        obtain ⟨-, h2⟩ := h
        subst h2
        have := ih p.1 p.2 htl
        simp
        omega

/-- Value of one hexadecimal digit. -/
def hexDigit (c : Char) : Option Nat :=
  if '0' ≤ c ∧ c ≤ '9' then some (c.toNat - '0'.toNat)
  else if 'a' ≤ c ∧ c ≤ 'f' then some (c.toNat - 'a'.toNat + 10)
  else if 'A' ≤ c ∧ c ≤ 'F' then some (c.toNat - 'A'.toNat + 10)
  else none

/-- Parse the hexadecimal chunk size at the front of a chunk-size line,
ignoring any chunk extension after `;`. -/
def parseChunkSizeAux : Nat → Bytes → Option Nat
  | acc, [] => some acc
  | acc, ';' :: _ => some acc
  | acc, c :: rest =>
    match hexDigit c with
    | some d => parseChunkSizeAux (acc * 16 + d) rest
    | none => none

/-- Modelled from the spec: the chunk-size line is hex digits with optional
extensions ignored (§4.1); at least one digit is required. -/
def parseChunkSize : Bytes → Option Nat
  | [] => none
  | ';' :: _ => none
  | line => parseChunkSizeAux 0 line

/-- Modelled from the spec: chunked decoding per §4.1 — chunk-size line,
chunk data, trailing CRLF per chunk, trailer lines parsed and discarded,
terminating `0\r\n\r\n` transitioning to `Eof`.  Malformed framing yields a
descriptive IO error (`osErr 22`, `EINVAL`). -/
def decodeChunkedStep : ChunkState → Bytes → ChunkResult × TransferCoding × Bytes
  | .size, buf =>
    match h : takeLine buf with
    | none => (.insufficientData, .decodeChunked .size, buf)
    | some (line, rest) =>
      match parseChunkSize line with
      | none => (.err (.osErr 22), .decodeChunked .size, rest)
      | some 0 => decodeChunkedStep .trailer rest
      | some (n + 1) => decodeChunkedStep (.data (n + 1)) rest
  | .data n, buf =>
    if buf = [] then (.insufficientData, .decodeChunked (.data n), buf)
    else
      let tk := min buf.length n
      (.ok (buf.take tk),
       .decodeChunked (if n - tk = 0 then .dataEnd else .data (n - tk)),
       buf.drop tk)
  | .dataEnd, buf =>
    match buf with
    | [] => (.insufficientData, .decodeChunked .dataEnd, buf)
    | ['\r'] => (.insufficientData, .decodeChunked .dataEnd, buf)
    | '\r' :: '\n' :: rest => decodeChunkedStep .size rest
    | _ => (.err (.osErr 22), .decodeChunked .dataEnd, buf)
  | .trailer, buf =>
    match h : takeLine buf with
    | none => (.insufficientData, .decodeChunked .trailer, buf)
    | some ([], rest) => (.eofRes, .eof, rest)
    | some (_ :: _, rest) => decodeChunkedStep .trailer rest
termination_by cs buf => buf.length
decreasing_by
  · exact takeLine_rest_lt _ _ _ h
  · exact takeLine_rest_lt _ _ _ h
  · simp; omega
  · exact takeLine_rest_lt _ _ _ h

/-- Modelled from the spec: `decode` consumes bytes from the front of the
buffer and never blocks (§4.1).  `Length(n)` returns up to
`min(buf.len, n)` bytes, decrements the remainder, and transitions to `Eof`
once it is exhausted; `Upgrade` passes every available byte through;
`Eof`/`PlainEof` report end of stream.  The encode-only `encodeChunked`
state is never decoded from; it reports end of stream. -/
def TransferCoding.decode : TransferCoding → Bytes → ChunkResult × TransferCoding × Bytes
  | .eof, buf => (.eofRes, .eof, buf)
  | .plainEof, buf => (.eofRes, .plainEof, buf)
  | .length n, buf =>
    if n = 0 then (.eofRes, .eof, buf)
    else if buf = [] then (.insufficientData, .length n, buf)
    else
      let tk := min buf.length n
      (.ok (buf.take tk), if n - tk = 0 then .eof else .length (n - tk), buf.drop tk)
  | .upgrade, buf =>
    if buf = [] then (.insufficientData, .upgrade, buf) else (.ok buf, .upgrade, [])
  | .decodeChunked cs, buf => decodeChunkedStep cs buf
  | .encodeChunked, buf => (.eofRes, .encodeChunked, buf)

/-- Modelled from the spec: `encode` (§4.1).  `Length(n)`: append raw bytes
and decrement; `Chunked`: append `len-hex\r\n`, the bytes, `\r\n`, skipping
entirely when the chunk is empty; `Upgrade`: append raw; anything else is a
no-op. -/
def TransferCoding.encode : TransferCoding → Bytes → Bytes → TransferCoding × Bytes
  | .length n, bytes, buf => (.length (n - bytes.length), buf ++ bytes)
  | .encodeChunked, bytes, buf =>
    if bytes = [] then (.encodeChunked, buf)
    else (.encodeChunked, buf ++ Nat.toDigits 16 bytes.length ++ '\r' :: '\n' :: bytes ++ [ '\r', '\n' ])
  | .upgrade, bytes, buf => (.upgrade, buf ++ bytes)
  | c, _, buf => (c, buf)

/-- Modelled from the spec: `encode_eof` (§4.1): `Chunked` appends
`0\r\n\r\n`; otherwise a no-op. -/
def TransferCoding.encode_eof : TransferCoding → Bytes → Bytes
  | .encodeChunked, buf => buf ++ [ '0', '\r', '\n', '\r', '\n' ]
  | _, buf => buf

/-! ## The request body stream
(`dispatcher_uring.rs`: `Body::new`, `BodyState`, `_Body`, `Decoder`) -/

/-- From `encode.rs`: `pub const CONTINUE: &[u8; 25] = b"HTTP/1.1 100 Continue\r\n\r\n";` -/
def CONTINUE : Bytes := "HTTP/1.1 100 Continue\r\n\r\n".data

/-- Modelled from the spec: `encode_continue` (referenced from
`dispatcher_uring.rs`; its definition is not under `src/`) appends the
`100 Continue` interim response bytes to a buffer. -/
def encodeContinue (buf : Bytes) : Bytes := buf ++ CONTINUE

/-- The data of `_Body` that the stream state machine reads and writes: the
read-buffer limit passed as `R_LIMIT`, the transfer decoder and the owned
read buffer (the transport handle and the `Notifier` take no part in
polling). -/
structure BodyInner where
  limit : Nat
  decoder : TransferCoding
  readBuf : Bytes
deriving DecidableEq, Repr

/-- The two futures `BodyState::Future` can hold: the initial
write-`100 Continue`-then-yield-body future built by `Body::new`, and the
`read_io`-then-check-zero future installed on `InsufficientData`. -/
inductive BodyFut where
  | sendContinue (b : BodyInner)
  | readMore (b : BodyInner)
deriving DecidableEq, Repr

/-- `BodyState`: streaming (`Body`), suspended on a future (`Future`), or
the internal placeholder (`None`). -/
inductive BodyStateM where
  | body (b : BodyInner)
  | future (f : BodyFut)
  | noneSt
deriving DecidableEq, Repr

/-- A transport completion delivered to the body stream: `ok s` is a
successful read of the bytes `s` (empty = peer EOF) or, for the
continue-send future, a successful write; `err e` a failed submission. -/
inductive BodyIoEv where
  | ok (s : Bytes)
  | err (e : IoErr)
deriving DecidableEq, Repr

def BodyStateM.rank : BodyStateM → Nat
  | .body _ => 1
  | _ => 0

/-- One call of `<BodyState as Stream>::poll_next`, driven by the oracle of
transport completions.  Returns the poll outcome, the state left behind,
the unconsumed oracle, and the bytes written to the transport during the
call (only the continue-send future ever writes).  The `noneSt` case is
unreachable from a stream consumer (`unreachable!` in the source); it is
mapped to end-of-stream. -/
def pollNext : BodyStateM → List BodyIoEv →
    PollRes (Option (Except IoErr Bytes)) × BodyStateM × List BodyIoEv × Bytes
  | .body b, oracle =>
    match b.decoder.decode b.readBuf with
    | (.ok bytes, d', rb') =>
      (.ready (some (.ok bytes)), .body { b with decoder := d', readBuf := rb' }, oracle, [])
    | (.err e, d', rb') =>
      (.ready (some (.error e)), .body { b with decoder := d', readBuf := rb' }, oracle, [])
    | (.eofRes, d', rb') =>
      (.ready none, .body { b with decoder := d', readBuf := rb' }, oracle, [])
    | (.insufficientData, d', rb') =>
      if b.limit ≤ rb'.length then
        (.ready (some (.error (.readBufLimit b.limit rb'.length))),
         .body { b with decoder := d', readBuf := rb' }, oracle, [])
      else
        pollNext (.future (.readMore { b with decoder := d', readBuf := rb' })) oracle
  | .future (.sendContinue b), [] => (.pending, .future (.sendContinue b), [], [])
  | .future (.sendContinue b), ev :: rest =>
    match ev with
    | .ok _ =>
      let r := pollNext (.body b) rest
      (r.1, r.2.1, r.2.2.1, encodeContinue [] ++ r.2.2.2)
    | .err e => (.ready (some (.error e)), .future (.sendContinue b), rest, [])
  | .future (.readMore b), [] => (.pending, .future (.readMore b), [], [])
  | .future (.readMore b), ev :: rest =>
    match ev with
    | .ok [] => (.ready (some (.error .unexpectedEof)), .future (.readMore b), rest, [])
    | .ok s => pollNext (.body { b with readBuf := b.readBuf ++ s }) rest
    | .err e => (.ready (some (.error e)), .future (.readMore b), rest, [])
  | .noneSt, oracle => (.ready none, .noneSt, oracle, [])
termination_by st oracle => (oracle.length, st.rank)
decreasing_by
  · exact Prod.Lex.right _ (by simp [BodyStateM.rank])
  · exact Prod.Lex.left _ _ (by simp)
  · exact Prod.Lex.left _ _ (by simp)

/-- `Body::new`: build the per-request body stream; when the request
carried `Expect: 100-continue` the stream starts suspended on the future
that writes the interim response, otherwise directly in the streaming
state.  Construction performs no IO. -/
def bodyNew (is_expect : Bool) (limit : Nat) (decoder : TransferCoding) (readBuf : Bytes) :
    BodyStateM :=
  let b : BodyInner := { limit := limit, decoder := decoder, readBuf := readBuf }
  if is_expect then .future (.sendContinue b) else .body b

/-! ## Response head encoding (`src/http/src/h1/proto/encode.rs`) -/

/-- Protocol error variants referenced by the encoder and the dispatcher
(`h1/proto/error.rs` is not under `src/`; the variants are those the spec's
§7 taxonomy and `encode.rs` use). -/
inductive ProtoError where
  | status
  | headerValue
  | headerTooLarge
  | badRequest
  | framingE
  | versionE
  | headerE
deriving DecidableEq, Repr

/-- HTTP versions distinguished by `encode_version_status_reason`. -/
inductive HVersion where
  | http10
  | http11
  | otherV
deriving DecidableEq, Repr

/-- Header names the encoder's drain loop inspects, plus a catch-all for
every other name (kept lowercase as the `http` crate renders them). -/
inductive HName where
  | connection
  | upgrade
  | date
  | contentLength
  | transferEncoding
  | te
  | host
  | other (s : String)
deriving DecidableEq, Repr

def HName.asStr : HName → String
  | .connection => "connection"
  | .upgrade => "upgrade"
  | .date => "date"
  | .contentLength => "content-length"
  | .transferEncoding => "transfer-encoding"
  | .te => "te"
  | .host => "host"
  | .other s => s

/-- The sequence yielded by `HeaderMap::drain()`: each entry is a value
with either a fresh name or `none`, the latter meaning "same name as the
previous entry". -/
abbrev Headers := List (Option HName × Bytes)

/-- Resolve the drain sequence to named pairs, threading the name register
exactly as the encoder's loop does (initial register `TE`). -/
def resolveNames : HName → Headers → List (HName × Bytes)
  | _, [] => []
  | _, (some n, v) :: rest => (n, v) :: resolveNames n rest
  | cur, (none, v) :: rest => (cur, v) :: resolveNames cur rest

/-- `HeaderMap::contains_key`, read off the drain sequence. -/
def containsKey (hs : Headers) (k : HName) : Bool :=
  (resolveNames .te hs).any fun p => p.1 = k

/-- `BodySize`: the size a response body declares
(`None | Sized(n) | Stream`; `body.rs` is not under `src/`, the variants
are those `encode.rs` matches on). -/
inductive BodySize where
  | noneSize
  | sized (n : Nat)
  | stream
deriving DecidableEq, Repr

/-- Response head as far as the encoder reads it: version, status code and
the drained header sequence (extensions only get cleared and recycled). -/
structure Parts where
  version : HVersion
  status : Nat
  headers : Headers
deriving DecidableEq, Repr

/-- The per-connection context fields `encode.rs` consults, with the cached
date value carried as bytes. -/
structure EncCtx where
  isConnectMethod : Bool
  isHeadMethod : Bool
  closed : Bool
  dateStr : Bytes
deriving DecidableEq, Repr

/-- Canonical reason phrases of the `http` crate
(`StatusCode::canonical_reason`) for the codes this development touches. -/
def canonicalReason (s : Nat) : Option String :=
  if s = 100 then some "Continue"
  else if s = 101 then some "Switching Protocols"
  else if s = 103 then some "Early Hints"
  else if s = 200 then some "OK"
  else if s = 400 then some "Bad Request"
  else if s = 404 then some "Not Found"
  else if s = 408 then some "Request Timeout"
  else if s = 431 then some "Request Header Fields Too Large"
  else if s = 500 then some "Internal Server Error"
  else none

/-- `StatusCode::is_informational` of the `http` crate: `100..=199`. -/
def isInformational (s : Nat) : Bool := 100 ≤ s && s ≤ 199

/-- `StatusCode::is_success` of the `http` crate: `200..=299`. -/
def isSuccess (s : Nat) : Bool := 200 ≤ s && s ≤ 299

/-- `encode_version_status_reason`: fast path for `HTTP/1.1 200 OK`,
otherwise version prelude, the three status digits, a space and the
canonical reason (`<none>` as fallback — "a reason MUST be written"). -/
def encodeVersionStatusReason (version : HVersion) (status : Nat) (buf : Bytes) : Bytes :=
  if version = .http11 ∧ status = 200 then buf ++ "HTTP/1.1 200 OK".data
  else
    let buf := match version with
      | .http11 => buf ++ "HTTP/1.1 ".data
      | .http10 => buf ++ "HTTP/1.0 ".data
      | .otherV => buf ++ "HTTP/1.1 ".data
    let reason := (canonicalReason status).getD "<none>"
    buf ++ Nat.toDigits 10 status ++ " ".data ++ reason.data

/-- From `encode.rs`: `const CHUNKED_HEADER: &[u8; 28]`. -/
def CHUNKED_HEADER : Bytes := "\r\ntransfer-encoding: chunked".data

/-- From `encode.rs`: `const CLOSE_HEADER: &[u8; 19]`. -/
def CLOSE_HEADER : Bytes := "\r\nconnection: close".data

/-- `write_length_header`: append `\r\ncontent-length: <n>`. -/
def writeLengthHeader (n : Nat) (buf : Bytes) : Bytes :=
  buf ++ "\r\ncontent-length: ".data ++ Nat.toDigits 10 n

/-- `try_remove_body`: when responding to HEAD, write the framing header
the body would have implied (unless the headers already carry one) and
strip the body by setting its size to `None`. -/
def tryRemoveBody (buf : Bytes) (headers : Headers) (size : BodySize) : Bytes × BodySize :=
  match size with
  | .noneSize => (buf, size)
  | .stream =>
    if containsKey headers .transferEncoding then (buf, size)
    else (buf ++ CHUNKED_HEADER, .noneSize)
  | .sized n =>
    if containsKey headers .contentLength then (buf, size)
    else (writeLengthHeader n buf, .noneSize)

def trimSpaces (v : Bytes) : Bytes :=
  ((v.dropWhile fun c => c = ' ' || c = '\t').reverse.dropWhile fun c => c = ' ' || c = '\t').reverse

/-- The comma-separated, trimmed, case-insensitive membership test the
encoder applies to `Transfer-Encoding` values (`val.trim()` then
`eq_ignore_ascii_case`). -/
def valueHasToken (v : Bytes) (tok : String) : Bool :=
  (v.splitOn ',').any fun t => (trimSpaces t).map Char.toLower = tok.data

/-- Modelled from the spec: `Context::try_set_close_from_header`
(`h1/proto/context.rs` is not under `src/`): the response's own
`Connection: close` header marks the connection for close (§4.3
"`Connection` is rewritten according to `close_requested`").  Its error
path on a malformed value is not reached by any claim and is not
modelled. -/
def trySetCloseFromHeader (ctx : EncCtx) (v : Bytes) : EncCtx :=
  if valueHasToken v "close" then { ctx with closed := true } else ctx

/-- Modelled from the spec: `header::parse_content_length`
(`h1/proto/header.rs` is not under `src/`): a decimal digit string giving
the length, anything else a header-value protocol error. -/
def parseContentLength (v : Bytes) : Except ProtoError Nat :=
  if v ≠ [] ∧ v.all fun c => '0' ≤ c && c ≤ '9' then
    .ok (v.foldl (fun acc c => acc * 10 + (c.toNat - '0'.toNat)) 0)
  else .error .headerValue

/-- Accumulator of the encoder's header drain loop: the context (whose
close flag `Connection` values may set), the name register (initially
`TE`), the `skip_date`/`skip_len` flags, the framing chosen so far
(initially `TransferCoding::eof()`), and the output buffer. -/
structure WalkSt where
  ctx : EncCtx
  name : HName
  skipDate : Bool
  skipLen : Bool
  encoding : TransferCoding
  buf : Bytes
deriving DecidableEq, Repr

/-- Append one header to the buffer: `", value"` for a continuation entry,
`"\r\nname: value"` otherwise. -/
def writeHeader (st : WalkSt) (isContinue : Bool) (value : Bytes) : WalkSt :=
  if isContinue then
    { st with buf := st.buf ++ ", ".data ++ value }
  else
    { st with buf := st.buf ++ '\r' :: '\n' :: st.name.asStr.data ++ ": ".data ++ value }

/-- The drain loop of `Context::encode_headers`: `Connection` entries are
skipped once the connection is closed and otherwise may set the close
flag; `Upgrade` switches the framing to upgrade; `Date` suppresses the
auto-date; `Content-Length` parses the value into `Length` framing and
sets `skip_len`; `Transfer-Encoding` containing a `chunked` token selects
chunked framing and sets `skip_len`; every non-skipped entry is written
out. -/
def walkHeaders : WalkSt → Headers → Except ProtoError WalkSt
  | st, [] => .ok st
  | st, (nextName, value) :: rest =>
    let isContinue := nextName.isNone
    let st := { st with name := nextName.getD st.name }
    match st.name with
    | .connection =>
      if st.ctx.closed then
        walkHeaders st rest
      else
        let st := { st with ctx := trySetCloseFromHeader st.ctx value }
        walkHeaders (writeHeader st isContinue value) rest
    | .upgrade =>
      walkHeaders (writeHeader { st with encoding := .upgrade } isContinue value) rest
    | .date =>
      walkHeaders (writeHeader { st with skipDate := true } isContinue value) rest
    | .contentLength =>
      match parseContentLength value with
      | .error e => .error e
      | .ok n =>
        walkHeaders (writeHeader { st with encoding := .length n, skipLen := true } isContinue value) rest
    | .transferEncoding =>
      let st :=
        if valueHasToken value "chunked" then
          { st with encoding := .encodeChunked, skipLen := true }
        else st
      walkHeaders (writeHeader st isContinue value) rest
    | _ => walkHeaders (writeHeader st isContinue value) rest

/-- `Context::encode_headers`: strip the body for HEAD, drain the headers,
then — unless a framing header was already supplied — derive framing and
its header from the body's declared size, append `connection: close` when
closing, the auto-date unless suppressed, and the terminating blank
line. -/
def encodeHeaders (ctx : EncCtx) (headers : Headers) (size : BodySize)
    (buf : Bytes) (skip_len : Bool) : Except ProtoError (TransferCoding × EncCtx × Bytes) :=
  let (buf, size) :=
    if ctx.isHeadMethod then tryRemoveBody buf headers size else (buf, size)
  match walkHeaders
      { ctx := ctx, name := .te, skipDate := false, skipLen := skip_len,
        encoding := .eof, buf := buf } headers with
  | .error e => .error e
  | .ok st =>
    let (encoding, buf) :=
      if st.skipLen then (st.encoding, st.buf)
      else
        match size with
        | .noneSize => (.eof, st.buf)
        | .stream => (.encodeChunked, st.buf ++ CHUNKED_HEADER)
        | .sized n => (.length n, writeLengthHeader n st.buf)
    let buf := if st.ctx.closed then buf ++ CLOSE_HEADER else buf
    let buf := if st.skipDate then buf else buf ++ "\r\ndate: ".data ++ st.ctx.dateStr
    .ok (encoding, st.ctx, buf ++ "\r\n\r\n".data)

/-- The `skip_len` decision at the top of `Context::encode_head_inner`:
`101 Switching Protocols` skips the framing header, as does a 2xx response
to CONNECT; any other informational status is rejected with
`ProtoError::Status`. -/
def skipLenDecision (isConnect : Bool) (status : Nat) : Except ProtoError Bool :=
  if status = 101 then .ok true
  else if isConnect && isSuccess status then .ok true
  else if isInformational status then .error .status
  else .ok false

/-- `Context::encode_head_inner`: decide `skip_len` from the status (which
may reject the response), write the status line, then encode the headers.
The body argument is its declared `BodySize` (the source derives it through
`BodySize::from_stream`). -/
def encodeHeadInner (ctx : EncCtx) (parts : Parts) (size : BodySize) (buf : Bytes) :
    Except ProtoError (TransferCoding × EncCtx × Bytes) :=
  match skipLenDecision ctx.isConnectMethod parts.status with
  | .error e => .error e
  | .ok skip_len =>
    encodeHeaders ctx parts.headers size
      (encodeVersionStatusReason parts.version parts.status buf) skip_len

/-- The framing header a body of the given declared size implies
(`try_remove_body` / the `!skip_len` branch of `encode_headers`). -/
def impliedFramingHeader : BodySize → Bytes
  | .noneSize => []
  | .stream => CHUNKED_HEADER
  | .sized n => "\r\ncontent-length: ".data ++ Nat.toDigits 10 n

/-! ## The outer dispatcher loop (`Dispatcher::run` / `request_error`) -/

/-- The error type of the dispatcher (`h1/error.rs` is not under `src/`;
the variants are the ones `Dispatcher::run` matches on, §7). -/
inductive RunError where
  | keepAliveExpire
  | requestTimeout
  | proto (pe : ProtoError)
  | ioE (e : IoErr)
  | serviceE
  | bodyE
deriving DecidableEq, Repr

/-- Modelled from the spec: `status_only` (`h1/dispatcher.rs`, not under
`src/`) builds a response with the given status, no headers and a
`NoneBody`, whose declared size makes the canonical error response carry
`content-length: 0` (§7, §8 scenario 5). -/
def statusOnly (status : Nat) : Parts × BodySize :=
  ({ version := .http11, status := status, headers := [] }, .sized 0)

/-- `Dispatcher::request_error`: mark the connection closed, then encode
the canonical status-only response into the write buffer (the source
`expect`s this encoding to succeed; the error arm is unreachable for the
statuses used and returns the inputs unchanged). -/
def requestError (ctx : EncCtx) (wbuf : Bytes) (status : Nat) : EncCtx × Bytes :=
  let ctx := { ctx with closed := true }
  let (parts, size) := statusOnly status
  match encodeHeadInner ctx parts size wbuf with
  | .ok (_, ctx', buf') => (ctx', buf')
  | .error _ => (ctx, wbuf)

/-- What one iteration of the outer loop does after `_run` returns: exit
(with the bytes drained to the transport and whether the transport was shut
down), continue with the next iteration, fail with a propagated error, or
stall because the write oracle was exhausted. -/
inductive RunOutcome where
  | exited (wire : Bytes) (shutdownDone : Bool)
  | continued (wire : Bytes)
  | failed (e : RunError)
  | stalled
deriving DecidableEq, Repr

/-- One iteration of `Dispatcher::run` beginning at the `match` on the
`_run` result: protocol failures encode their canonical response via
`request_error`, `KeepAliveExpire` returns immediately (no bytes emitted),
other errors propagate; then the write buffer is drained to the transport
and, when the connection is marked closed, the transport is shut down. -/
def runStep (ctx : EncCtx) (wbuf : Bytes) (res : Except RunError Unit)
    (oracle : List (Except IoErr Nat)) : EncCtx × RunOutcome :=
  let afterMatch : Except RunError (EncCtx × Bytes) :=
    match res with
    | .ok _ => .ok (ctx, wbuf)
    | .error .keepAliveExpire => .error .keepAliveExpire
    | .error .requestTimeout => .ok (requestError ctx wbuf 408)
    | .error (.proto .headerTooLarge) => .ok (requestError ctx wbuf 431)
    | .error (.proto _) => .ok (requestError ctx wbuf 400)
    | .error e => .error e
  match afterMatch with
  | .error .keepAliveExpire => (ctx, .exited [] false)
  | .error e => (ctx, .failed e)
  | .ok (ctx, wbuf) =>
    match writeBufDrain wbuf oracle with
    | none => (ctx, .stalled)
    | some (.err e, _) => (ctx, .failed (.ioE e))
    | some (.ok, _) =>
      if ctx.closed then (ctx, .exited wbuf true) else (ctx, .continued wbuf)

/-- The canonical protocol-error response: status line, `content-length: 0`,
`connection: close`, the auto-inserted date header, terminating blank
line. -/
def canonicalErrorResponse (status : Nat) (d : Bytes) : Bytes :=
  encodeVersionStatusReason .http11 status [] ++
    "\r\ncontent-length: 0".data ++ CLOSE_HEADER ++
    "\r\ndate: ".data ++ d ++ "\r\n\r\n".data

/-! ## The response-body pump (`Dispatcher::_run`, inner block) -/

/-- One outcome of polling the handler's response body. -/
inductive BodyPollEv where
  | chunk (s : Bytes)
  | pend
  | done
deriving DecidableEq, Repr

/-- How a body poll resolved (recorded in the pump trace). -/
inductive PollKind where
  | chunkK
  | doneK
  | pendK
deriving DecidableEq, Repr

/-- Observable events of the response-body pump: a poll of the body at the
given buffer length, a chunk encoded (recording the buffer length
afterwards), the end-of-body terminator encoded, or a drain of the buffer
to the socket. -/
inductive PumpEv where
  | polled (len : Nat) (k : PollKind)
  | enc (len : Nat)
  | encEof (len : Nat)
  | drained (len : Nat)
deriving DecidableEq, Repr

/-- The response-body pump of `Dispatcher::_run`: while the buffer length
is below `W` the body is polled — a chunk is encoded and the loop
continues, end-of-body encodes the terminator and breaks (without a final
drain; the outer loop flushes), a pending body suspends when the buffer is
empty and otherwise falls through to a drain; once the length is at or
above `W` the buffer is drained before polling again.  The body oracle
lists the successive poll outcomes; an exhausted oracle stands for a body
that stays pending.  Returns the event trace, the final encoder state, the
final buffer, and the bytes drained to the socket.  (The `W = 0` guard cuts
the everlasting no-op drain the real loop would perform; configurations use
`W ≥ 1`.) -/
def pump (W : Nat) : TransferCoding → Bytes → Bytes → List BodyPollEv →
    List PumpEv × TransferCoding × Bytes × Bytes
  | enc, buf, wire, [] => ([], enc, buf, wire)
  | enc, buf, wire, ev :: rest =>
    let pre : List PumpEv × Bytes × Bytes :=
      if buf.length < W then ([], buf, wire)
      else ([.drained buf.length], [], wire ++ buf)
    let evs := pre.1
    let buf := pre.2.1
    let wire := pre.2.2
    if buf.length < W then
      match ev with
      | .chunk s =>
        let (enc', buf') := enc.encode s buf
        let r := pump W enc' buf' wire rest
        (evs ++ .polled buf.length .chunkK :: .enc buf'.length :: r.1, r.2)
      | .done =>
        let buf' := enc.encode_eof buf
        (evs ++ [.polled buf.length .doneK, .encEof buf'.length], enc, buf', wire)
      | .pend =>
        if buf.length = 0 then
          let r := pump W enc buf wire rest
          (evs ++ .polled buf.length .pendK :: r.1, r.2)
        else
          let r := pump W enc [] (wire ++ buf) rest
          (evs ++ .polled buf.length .pendK :: .drained buf.length :: r.1, r.2)
    else (evs, enc, buf, wire)

/-- Trace check for "once the buffer length reaches or exceeds `W`, a drain
happens before the body is polled again": scan the trace carrying whether
the buffer is at or above `W`; a poll while it is constitutes a
violation. -/
def drainBeforeRepoll (W : Nat) : Bool → List PumpEv → Bool
  | _, [] => true
  | over, ev :: rest =>
    match ev with
    | .polled _ _ => !over && drainBeforeRepoll W over rest
    | .enc len => drainBeforeRepoll W (decide (W ≤ len)) rest
    | .encEof len => drainBeforeRepoll W (decide (W ≤ len)) rest
    | .drained _ => drainBeforeRepoll W false rest

/-- Trace check for "a pending body with a non-empty buffer triggers a
drain": every pending poll at a non-zero buffer length is immediately
followed by a drain of exactly that buffer. -/
def pendDrains : List PumpEv → Bool
  | [] => true
  | ev :: rest =>
    match ev with
    | .polled len .pendK =>
      if len = 0 then pendDrains rest
      else
        match rest with
        | .drained len' :: _ => (len' = len) && pendDrains rest
        | _ => false
    | _ => pendDrains rest

/-! ## The inner dispatch loop (`Dispatcher::_run`, pipelining over decoded
heads) and the read-buffer handoff -/

/-- The per-request data the inner-loop model consumes: the decoder state
`decode_head` returned, the decoder state the `Decoder` holds when the
`BodyStream` is dropped (after however much of the body the handler
pulled), and the read buffer it holds at that moment. -/
structure ReqScript where
  decodedCoding : TransferCoding
  dropCoding : TransferCoding
  bufAtDrop : Bytes
deriving DecidableEq, Repr

/-- Observable events of the inner loop. -/
inductive LoopEv where
  | decodeHead
  | dispatchEof
  | dispatchBody
  | waitSome (buf : Bytes)
  | waitNone
deriving DecidableEq, Repr

/-- The dispatcher state the inner loop threads: its read buffer and the
close flag. -/
structure LoopSt where
  readBuf : Bytes
  close : Bool
deriving DecidableEq, Repr

/-- `Drop for Decoder`: deposit the read buffer into the rendezvous exactly
when the transfer decoder is at EOF; otherwise drop without depositing. -/
def decoderDrop (dropCoding : TransferCoding) (bufAtDrop : Bytes)
    (n : NotifyState Bytes) : NotifyState Bytes :=
  if dropCoding.is_eof then notifierNotify bufAtDrop n else n

/-- The `while let Some((req, decoder)) = ctx.decode_head(..)` loop of
`Dispatcher::_run`: an EOF-framed request is dispatched with an empty body
and no waiter; otherwise the read buffer moves into the `BodyStream`, a
`Notifier` is installed (fresh rendezvous, strong count 2), and after the
response the body's `Decoder` and `Notifier` drop in order; the dispatcher
then awaits the rendezvous — `some buf` reinstalls `buf` as the read
buffer and the loop continues, `none` sets the close flag and breaks.  The
pending arm of the wait is unreachable (the strong count is 1 once the
notifier dropped) and ends the loop leaving the state unchanged. -/
def innerLoop (st : LoopSt) : List ReqScript → List LoopEv × LoopSt
  | [] => ([], st)
  | r :: rest =>
    if r.decodedCoding.is_eof then
      let (tr, st') := innerLoop st rest
      (.decodeHead :: .dispatchEof :: tr, st')
    else
      let n0 := NotifyState.fresh Bytes
      let n1 := decoderDrop r.dropCoding r.bufAtDrop n0
      let n2 := notifierDrop n1
      match notifyWaitPoll n2 with
      | (.ready (some buf), _) =>
        let (tr, st') := innerLoop { st with readBuf := buf } rest
        (.decodeHead :: .dispatchBody :: .waitSome buf :: tr, st')
      | (.ready none, _) =>
        ([.decodeHead, .dispatchBody, .waitNone], { readBuf := [], close := true })
      | (.pending, _) =>
        ([.decodeHead, .dispatchBody], st)

/-- Trace check for "no head is decoded while a dispatched body's
rendezvous is unresolved": scan carrying whether a `dispatchBody` is
pending resolution; a `decodeHead` while it is constitutes a violation. -/
def noHeadBeforeWaitResolved : Bool → List LoopEv → Bool
  | _, [] => true
  | pending, ev :: rest =>
    match ev with
    | .decodeHead => !pending && noHeadBeforeWaitResolved pending rest
    | .dispatchBody => noHeadBeforeWaitResolved true rest
    | .waitSome _ => noHeadBeforeWaitResolved false rest
    | .waitNone => noHeadBeforeWaitResolved false rest
    | .dispatchEof => noHeadBeforeWaitResolved pending rest

/-! ## Theorems -/

/-- Claim C9 counterexample: the compile-time default write-buffer limit in
`config.rs` is `8192 + 4096 * 100 = 417792` bytes, not the 425984 bytes
(416 KiB) the claim states. -/
theorem C9_counterexample :
    DEFAULT_WRITE_BUF_LIMIT = 417792 ∧ DEFAULT_WRITE_BUF_LIMIT ≠ 425984 := by
  constructor <;> decide

/-- Claim C9 (amended): the compile-time defaults are header limit `H = 64`,
read-buffer limit `R = 1048576` (1 MiB), and write-buffer limit
`W = 417792` bytes (`8192 + 4096 * 100`, i.e. 408 KiB). -/
theorem C9_config_defaults :
    DEFAULT_HEADER_LIMIT = 64 ∧
    DEFAULT_READ_BUF_LIMIT = 1048576 ∧
    DEFAULT_WRITE_BUF_LIMIT = 417792 := by
  refine ⟨rfl, by decide, by decide⟩

/-- Claim C1: one poll of `Notify::wait` settles the rendezvous in exactly
one of two ready ways: it yields `some v` exactly when a value has been
deposited (in particular a deposit followed by the producer dropping —
strong count 1 — still yields `some v`, never `none`); it yields `none`
exactly when no value is deposited and the strong count has dropped to 1
(only the waiter remains); in every other state it installs the current
waker and stays pending.  The three outcomes are mutually exclusive and
exhaustive. -/
theorem C1_notify_rendezvous {T : Type} (st : NotifyState T) :
    (∀ v, st.inner.val = some v →
      notifyWaitPoll st =
        (.ready (some v), { st with inner := { st.inner with val := none } })) ∧
    (st.inner.val = none → st.strongCount = 1 →
      notifyWaitPoll st = (.ready none, st)) ∧
    (st.inner.val = none → st.strongCount ≠ 1 →
      notifyWaitPoll st =
        (.pending, { st with inner := { st.inner with waker := some () } })) := by
  refine ⟨?_, ?_, ?_⟩
  · intro v hv
    simp [notifyWaitPoll, hv]
  · intro hv hc
    simp [notifyWaitPoll, hv, hc]
  · intro hv hc
    simp [notifyWaitPoll, hv, hc]

/-- Claim C1 witness: concrete instances of the three settlements.  A state
with a deposited buffer and producer already gone resolves to `some`; a
deposit-free state with strong count 1 resolves to `none`; a deposit-free
state with strong count 2 pends and installs the waker. -/
theorem C1_notify_rendezvous_witness :
    notifyWaitPoll { strongCount := 1, inner := { waker := none, val := some [ 'a' ] } } =
      (.ready (some [ 'a' ]), { strongCount := 1, inner := { waker := none, val := none } }) ∧
    notifyWaitPoll ({ strongCount := 1, inner := { waker := none, val := none } } : NotifyState Bytes) =
      (.ready none, { strongCount := 1, inner := { waker := none, val := none } }) ∧
    notifyWaitPoll ({ strongCount := 2, inner := { waker := none, val := none } } : NotifyState Bytes) =
      (.pending, { strongCount := 2, inner := { waker := some (), val := none } }) := by
  refine ⟨?_, ?_, ?_⟩
  · exact (C1_notify_rendezvous _).1 _ rfl
  · exact (C1_notify_rendezvous _).2.1 rfl rfl
  · exact (C1_notify_rendezvous _).2.2 rfl (by decide)

/-- Claim C10: `write_all` aborts with a `WriteZero` IO error whenever the
transport reports a successful transfer of 0 bytes while bytes remain
(rather than looping on that completion); it returns `Ok` only once every
initialized byte of the buffer has been accepted by the transport; and
`WriteBuf::write_io` leaves the write buffer empty afterwards in either
outcome. -/
theorem C10_write_all (len n : Nat) (oracle rest : List (Except IoErr Nat))
    (buf : Bytes) :
    (n < len → writeAll len n (.ok 0 :: rest) = some (.err .writeZero, n)) ∧
    (∀ res nFinal, writeAll len n oracle = some (res, nFinal) →
      res = .ok → len ≤ nFinal) ∧
    (∀ res buf', writeBufDrain buf oracle = some (res, buf') → buf' = []) := by
  refine ⟨?_, ?_, ?_⟩
  · intro h
    rw [writeAll.eq_def]
    simp [h]
  · intro res nFinal
    induction oracle generalizing n with
    | nil =>
      intro h hres
      rw [writeAll.eq_def] at h
      by_cases hn : n < len
      · simp [hn] at h
      · simp [hn] at h
        omega
    | cons o rest ih =>
      intro h hres
      rw [writeAll.eq_def] at h
      by_cases hn : n < len
      · simp only [if_pos hn] at h
        match o with
        | .ok 0 =>
          simp at h
          rw [← h.1] at hres
          cases hres
        | .ok (m + 1) => exact ih _ h hres
        | .error e =>
          simp at h
          rw [← h.1] at hres
          cases hres
      · simp [hn] at h
        omega
  · intro res buf' h
    unfold writeBufDrain at h
    cases hw : writeAll buf.length 0 oracle with
    | none => rw [hw] at h; cases h
    | some p =>
      rw [hw] at h
      simp at h
      exact h.2

/-- Claim C10 witness: draining a 3-byte buffer through completions of 2
then 1 bytes succeeds and empties the buffer; a zero-byte completion with
2 bytes still unwritten yields `WriteZero`. -/
theorem C10_write_all_witness :
    (1 < 3 ∧ writeAll 3 1 [.ok 0] = some (.err .writeZero, 1)) ∧
    writeBufDrain [ 'a', 'b', 'c' ] [.ok 2, .ok 1] = some (.ok, []) ∧
    (∀ res buf', writeBufDrain [ 'a', 'b', 'c' ] [.ok 2, .error (.osErr 5)] = some (res, buf') → buf' = []) := by
  refine ⟨⟨by decide, (C10_write_all 3 1 [] [] []).1 (by decide)⟩, by decide, ?_⟩
  intro res buf'
  exact fun h => (C10_write_all 3 0 [.ok 2, .error (.osErr 5)] [] [ 'a', 'b', 'c' ]).2.2 res buf' h

theorem pollNext_writes (oracle : List BodyIoEv) : ∀ b : BodyInner,
    (pollNext (.future (.readMore b)) oracle).2.2.2 = [] ∧
    (pollNext (.body b) oracle).2.2.2 = [] := by
  induction oracle with
  | nil =>
    intro b
    constructor
    · simp [pollNext]
    · rw [pollNext.eq_def]
      rcases hd : b.decoder.decode b.readBuf with ⟨cr, d', rb'⟩
      simp only [hd]
      split
      · simp
      · simp
      · simp
      · split
        · simp
        · simp [pollNext]
  | cons ev rest ih =>
    intro b
    have hR : ∀ b' : BodyInner,
        (pollNext (.future (.readMore b')) (ev :: rest)).2.2.2 = [] := by
      intro b'
      rw [pollNext.eq_def]
      cases ev with
      | ok s =>
        cases s with
        | nil => simp
        | cons c cs => simpa using (ih _).2
      | err e => simp
    refine ⟨hR b, ?_⟩
    rw [pollNext.eq_def]
    rcases hd : b.decoder.decode b.readBuf with ⟨cr, d', rb'⟩
    simp only [hd]
    split
    · simp
    · simp
    · simp
    · split
      · simp
      · exact hR _

/-- Claim C5: with `Expect: 100-continue` set, `Body::new` builds the
stream suspended on the continue-send future without performing any IO
(conjunct 1), and an unpolled stream never writes (conjunct 2: polling with
no transport completion available leaves the state untouched and writes
nothing).  On the first poll that the transport write completes, the exact
bytes `HTTP/1.1 100 Continue\r\n\r\n` are written and only then does the
call continue as a plain body poll, i.e. before any decoding (conjunct 3);
plain body polls never write (conjunct 4), so the interim response goes out
exactly once.  Conjunct 5 pins the wire bytes to the `CONTINUE` constant of
`encode.rs`. -/
theorem C5_expect_continue (limit : Nat) (d : TransferCoding) (rb : Bytes)
    (b : BodyInner) :
    bodyNew true limit d rb =
      .future (.sendContinue { limit := limit, decoder := d, readBuf := rb }) ∧
    pollNext (.future (.sendContinue b)) [] =
      (.pending, .future (.sendContinue b), [], []) ∧
    (∀ s rest,
      pollNext (.future (.sendContinue b)) (.ok s :: rest) =
        ((pollNext (.body b) rest).1, (pollNext (.body b) rest).2.1,
         (pollNext (.body b) rest).2.2.1, CONTINUE ++ (pollNext (.body b) rest).2.2.2)) ∧
    (∀ (b' : BodyInner) (o : List BodyIoEv), (pollNext (.body b') o).2.2.2 = []) ∧
    CONTINUE = "HTTP/1.1 100 Continue\r\n\r\n".data := by
  refine ⟨rfl, by simp [pollNext], ?_, fun b' o => (pollNext_writes o b').2, rfl⟩
  intro s rest
  rw [pollNext.eq_def]
  simp [encodeContinue, CONTINUE]

/-- Claim C8: when the decoder reports `InsufficientData` on a pull of the
body stream, the stream yields the `READ_BUF_LIMIT` IO error if the read
buffer already holds at least `limit` (= `R_LIMIT`) bytes; otherwise it
suspends until one transport read completes (conjunct 2: no completion
available means `Pending` on the read future) and retries decoding on the
extended buffer (conjunct 4); a zero-byte read completion yields an
`UnexpectedEof` IO error (conjunct 3). -/
theorem C8_insufficient_data (b : BodyInner) (d' : TransferCoding) (rb' : Bytes)
    (oracle : List BodyIoEv)
    (hdec : b.decoder.decode b.readBuf = (.insufficientData, d', rb')) :
    (b.limit ≤ rb'.length →
      pollNext (.body b) oracle =
        (.ready (some (.error (.readBufLimit b.limit rb'.length))),
         .body { b with decoder := d', readBuf := rb' }, oracle, [])) ∧
    (rb'.length < b.limit →
      pollNext (.body b) [] =
        (.pending, .future (.readMore { b with decoder := d', readBuf := rb' }), [], []) ∧
      (∀ rest, pollNext (.body b) (.ok [] :: rest) =
        (.ready (some (.error .unexpectedEof)),
         .future (.readMore { b with decoder := d', readBuf := rb' }), rest, [])) ∧
      (∀ c s rest, pollNext (.body b) (.ok (c :: s) :: rest) =
        pollNext (.body { b with decoder := d', readBuf := rb' ++ c :: s }) rest)) := by
  constructor
  · intro hlim
    rw [pollNext.eq_def]
    simp [hdec, hlim]
  · intro hlim
    have hbody : ∀ o : List BodyIoEv,
        pollNext (.body b) o =
          pollNext (.future (.readMore { b with decoder := d', readBuf := rb' })) o := by
      intro o
      rw [pollNext.eq_def]
      simp [hdec, Nat.not_le.mpr hlim]
    refine ⟨?_, ?_, ?_⟩
    · rw [hbody]
      simp [pollNext]
    · intro rest
      rw [hbody, pollNext.eq_def]
    · intro c s rest
      rw [hbody, pollNext.eq_def]

/-- Claim C8 witness: a `Length(3)` decoder over an empty read buffer
reports `InsufficientData`; with limit 0 it resolves to the
`READ_BUF_LIMIT` error, with limit 4 it suspends, turns a zero-byte read
into `UnexpectedEof`, and retries decoding after a 2-byte read (yielding
those 2 bytes). -/
theorem C8_insufficient_data_witness :
    ((TransferCoding.length 3).decode [] = (.insufficientData, .length 3, []) ∧
      pollNext (.body { limit := 0, decoder := .length 3, readBuf := [] }) [] =
        (.ready (some (.error (.readBufLimit 0 0))),
         .body { limit := 0, decoder := .length 3, readBuf := [] }, [], [])) ∧
    (pollNext (.body { limit := 4, decoder := .length 3, readBuf := [] }) [] =
        (.pending, .future (.readMore { limit := 4, decoder := .length 3, readBuf := [] }), [], []) ∧
      pollNext (.body { limit := 4, decoder := .length 3, readBuf := [] }) [.ok []] =
        (.ready (some (.error .unexpectedEof)),
         .future (.readMore { limit := 4, decoder := .length 3, readBuf := [] }), [], []) ∧
      pollNext (.body { limit := 4, decoder := .length 3, readBuf := [] }) [.ok [ 'h', 'i' ]] =
        pollNext (.body { limit := 4, decoder := .length 3, readBuf := [ 'h', 'i' ] }) []) := by
  have hdec : (TransferCoding.length 3).decode [] = (.insufficientData, .length 3, []) := by
    simp [TransferCoding.decode]
  refine ⟨⟨hdec, ?_⟩, ?_, ?_, ?_⟩
  · exact (C8_insufficient_data { limit := 0, decoder := .length 3, readBuf := [] }
      (.length 3) [] [] hdec).1 (by decide)
  · exact ((C8_insufficient_data { limit := 4, decoder := .length 3, readBuf := [] }
      (.length 3) [] [] hdec).2 (by decide)).1
  · exact ((C8_insufficient_data { limit := 4, decoder := .length 3, readBuf := [] }
      (.length 3) [] [] hdec).2 (by decide)).2.1 []
  · exact ((C8_insufficient_data { limit := 4, decoder := .length 3, readBuf := [] }
      (.length 3) [] [] hdec).2 (by decide)).2.2 'h' [ 'i' ] []

/-- Claim C6: `encode_head` rejects every informational (1xx) response
other than `101 Switching Protocols` with `ProtoError::Status`
(conjunct 1); 101 is accepted with the content-length/transfer-encoding
emission skipped (`skip_len = true`, conjunct 2), as is a 2xx response to a
CONNECT request (conjunct 3); conjunct 4 exhibits the accepted encoding of
a 101 response. -/
theorem C6_informational_rejected (ctx : EncCtx) (parts : Parts) (size : BodySize)
    (buf : Bytes) (d : Bytes) :
    (isInformational parts.status = true → parts.status ≠ 101 →
      encodeHeadInner ctx parts size buf = .error .status) ∧
    skipLenDecision ctx.isConnectMethod 101 = .ok true ∧
    (ctx.isConnectMethod = true → isSuccess parts.status = true →
      skipLenDecision ctx.isConnectMethod parts.status = .ok true) ∧
    encodeHeadInner
        { isConnectMethod := false, isHeadMethod := false, closed := false, dateStr := d }
        { version := .http11, status := 101, headers := [] } .noneSize [] =
      .ok (.eof,
        { isConnectMethod := false, isHeadMethod := false, closed := false, dateStr := d },
        "HTTP/1.1 101 Switching Protocols\r\ndate: ".data ++ d ++ "\r\n\r\n".data) := by
  refine ⟨?_, by simp [skipLenDecision], ?_, ?_⟩
  · intro hinf hne
    have h1 : 100 ≤ parts.status ∧ parts.status ≤ 199 := by
      simpa [isInformational] using hinf
    have hsucc : isSuccess parts.status = false := by
      simp [isSuccess]
      omega
    simp [encodeHeadInner, skipLenDecision, hne, hsucc, hinf]
  · intro hc hs
    by_cases h101 : parts.status = 101 <;> simp [skipLenDecision, hc, hs, h101]
  · rfl

/-- Claim C6 witness: a handler's `100 Continue` response is rejected with
`ProtoError::Status`; the skip-length decision for a 204 response to
CONNECT is an accepting `true`. -/
theorem C6_informational_rejected_witness :
    encodeHeadInner
        { isConnectMethod := false, isHeadMethod := false, closed := false, dateStr := [] }
        { version := .http11, status := 100, headers := [] } .noneSize [] = .error .status ∧
    skipLenDecision true 204 = .ok true := by
  constructor
  · exact (C6_informational_rejected
      { isConnectMethod := false, isHeadMethod := false, closed := false, dateStr := [] }
      { version := .http11, status := 100, headers := [] } .noneSize [] []).1 (by decide) (by decide)
  · exact (C6_informational_rejected
      { isConnectMethod := true, isHeadMethod := false, closed := false, dateStr := [] }
      { version := .http11, status := 204, headers := [] } .noneSize [] []).2.2.1 rfl (by decide)

theorem walkHeaders_no_framing (hs : Headers) : ∀ st : WalkSt,
    (∀ p ∈ resolveNames st.name hs, p.1 ≠ HName.contentLength ∧ p.1 ≠ HName.transferEncoding) →
    ∃ st' extra, walkHeaders st hs = .ok st' ∧
      st'.skipLen = st.skipLen ∧ st'.buf = st.buf ++ extra := by
  induction hs with
  | nil =>
    intro st _
    exact ⟨st, [], rfl, rfl, by simp⟩
  | cons entry rest ih =>
    rintro ⟨sctx, sname, sdate, slen, senc, sbuf⟩ hp
    obtain ⟨nextName, value⟩ := entry
    have step : ∀ (ctx₂ : EncCtx) (name₂ : HName) (sdate₂ : Bool) (enc₂ : TransferCoding)
        (isC : Bool),
        (∀ p ∈ resolveNames name₂ rest,
          p.1 ≠ HName.contentLength ∧ p.1 ≠ HName.transferEncoding) →
        ∃ st' extra,
          walkHeaders (writeHeader
            { ctx := ctx₂, name := name₂, skipDate := sdate₂, skipLen := slen,
              encoding := enc₂, buf := sbuf } isC value) rest = .ok st' ∧
          st'.skipLen = slen ∧ st'.buf = sbuf ++ extra := by
      intro ctx₂ name₂ sdate₂ enc₂ isC hres
      obtain ⟨st', extra, heq, hsl, hbuf⟩ := ih (writeHeader
        { ctx := ctx₂, name := name₂, skipDate := sdate₂, skipLen := slen,
          encoding := enc₂, buf := sbuf } isC value) (by cases isC <;> simpa [writeHeader] using hres)
      refine ⟨st', ?_, heq, by rw [hsl]; cases isC <;> simp [writeHeader], ?_⟩
      · exact (if isC then ", ".data ++ value else '\r' :: '\n' :: name₂.asStr.data ++ ": ".data ++ value) ++ extra
      · cases isC <;> simp [writeHeader] at hbuf ⊢ <;> simp [hbuf]
    cases nextName with
    | some n =>
      have hn := hp (n, value) (by simp [resolveNames])
      have htl : ∀ p ∈ resolveNames n rest,
          p.1 ≠ HName.contentLength ∧ p.1 ≠ HName.transferEncoding := by
        intro p hpm
        exact hp p (by simp [resolveNames, hpm])
      cases n with
      | contentLength => exact absurd rfl hn.1
      | transferEncoding => exact absurd rfl hn.2
      | connection =>
        by_cases hcl : sctx.closed = true
        · obtain ⟨st', extra, heq, hsl, hbuf⟩ := ih
            { ctx := sctx, name := .connection, skipDate := sdate, skipLen := slen,
              encoding := senc, buf := sbuf } htl
          refine ⟨st', extra, ?_, hsl, hbuf⟩
          simp only [walkHeaders, Option.getD, hcl]
          simpa using heq
        · obtain ⟨st', extra, heq, hsl, hbuf⟩ :=
            step (trySetCloseFromHeader sctx value) .connection sdate senc false htl
          refine ⟨st', extra, ?_, hsl, hbuf⟩
          simp only [walkHeaders, Option.getD, hcl]
          simpa using heq
      | upgrade => exact step sctx .upgrade sdate .upgrade false htl
      | date => exact step sctx .date true senc false htl
      | te => exact step sctx .te sdate senc false htl
      | host => exact step sctx .host sdate senc false htl
      | other s => exact step sctx (.other s) sdate senc false htl
    | none =>
      have hn := hp (sname, value) (by simp [resolveNames])
      have htl : ∀ p ∈ resolveNames sname rest,
          p.1 ≠ HName.contentLength ∧ p.1 ≠ HName.transferEncoding := by
        intro p hpm
        exact hp p (by simp [resolveNames, hpm])
      cases sname with
      | contentLength => exact absurd rfl hn.1
      | transferEncoding => exact absurd rfl hn.2
      | connection =>
        by_cases hcl : sctx.closed = true
        · obtain ⟨st', extra, heq, hsl, hbuf⟩ := ih
            { ctx := sctx, name := .connection, skipDate := sdate, skipLen := slen,
              encoding := senc, buf := sbuf } htl
          refine ⟨st', extra, ?_, hsl, hbuf⟩
          simp only [walkHeaders, Option.getD, hcl]
          simpa using heq
        · obtain ⟨st', extra, heq, hsl, hbuf⟩ :=
            step (trySetCloseFromHeader sctx value) .connection sdate senc true htl
          refine ⟨st', extra, ?_, hsl, hbuf⟩
          simp only [walkHeaders, Option.getD, hcl]
          simpa using heq
      | upgrade => exact step sctx .upgrade sdate .upgrade true htl
      | date => exact step sctx .date true senc true htl
      | te => exact step sctx .te sdate senc true htl
      | host => exact step sctx .host sdate senc true htl
      | other s => exact step sctx (.other s) sdate senc true htl

/-- Claim C7 (amended): for a response to a HEAD request whose header map
does not itself carry a `Content-Length` or `Transfer-Encoding` header, the
encoder returns the `Eof` framing — under which encoding body chunks and
the end-of-body terminator are no-ops, so no response-body byte ever
reaches the write buffer or the wire — while the framing header the body
would have implied is still written right after the status line and
headers' prefix `buf`: `content-length: n` for a `Sized n` body,
`transfer-encoding: chunked` for a `Stream` body, and nothing for a body
of size `None`. -/
theorem C7_head_framing (ctx : EncCtx) (headers : Headers) (size : BodySize) (buf : Bytes)
    (hhead : ctx.isHeadMethod = true)
    (hcl : containsKey headers .contentLength = false)
    (hte : containsKey headers .transferEncoding = false) :
    ∃ ctx' buf' post,
      encodeHeaders ctx headers size buf false = .ok (.eof, ctx', buf') ∧
      buf' = buf ++ impliedFramingHeader size ++ post ∧
      (∀ bytes wb, TransferCoding.encode .eof bytes wb = (.eof, wb)) ∧
      (∀ wb, TransferCoding.encode_eof .eof wb = wb) := by
  have hres : ∀ p ∈ resolveNames HName.te headers,
      p.1 ≠ HName.contentLength ∧ p.1 ≠ HName.transferEncoding := by
    intro p hm
    constructor
    · intro hk
      have hck : containsKey headers .contentLength = true := by
        simp only [containsKey, List.any_eq_true]
        exact ⟨p, hm, by simp [hk]⟩
      simp [hck] at hcl
    · intro hk
      have hck : containsKey headers .transferEncoding = true := by
        simp only [containsKey, List.any_eq_true]
        exact ⟨p, hm, by simp [hk]⟩
      simp [hck] at hte
  have htr : tryRemoveBody buf headers size = (buf ++ impliedFramingHeader size, .noneSize) := by
    cases size <;>
      simp [tryRemoveBody, impliedFramingHeader, hcl, hte, writeLengthHeader, List.append_assoc]
  obtain ⟨st', extra, heq, hsl, hbuf⟩ := walkHeaders_no_framing headers
    { ctx := ctx, name := .te, skipDate := false, skipLen := false,
      encoding := .eof, buf := buf ++ impliedFramingHeader size } hres
  refine ⟨st'.ctx,
    (if st'.ctx.closed then st'.buf ++ CLOSE_HEADER else st'.buf) ++
      (if st'.skipDate then [] else "\r\ndate: ".data ++ st'.ctx.dateStr) ++ "\r\n\r\n".data,
    extra ++ ((if st'.ctx.closed then CLOSE_HEADER else []) ++
      ((if st'.skipDate then [] else "\r\ndate: ".data ++ st'.ctx.dateStr) ++ "\r\n\r\n".data)),
    ?_, ?_, fun bytes wb => rfl, fun wb => rfl⟩
  · simp only [encodeHeaders, hhead, if_true, htr, heq, hsl]
    cases hd : st'.skipDate <;> simp
  · rw [hbuf] at *
    cases hc : st'.ctx.closed <;> cases hd : st'.skipDate <;>
      simp [List.append_assoc]

/-- Claim C7 counterexample: a response to a HEAD request that itself
carries a `content-length: 5` header keeps `Length 5` framing — under
which encoding a 5-byte chunk appends those raw body bytes to the write
buffer, which the dispatcher then drains to the wire — contradicting "no
response-body bytes are emitted onto the wire" for responses to HEAD. -/
theorem C7_head_framing_counterexample :
    encodeHeaders
        { isConnectMethod := false, isHeadMethod := true, closed := false, dateStr := [] }
        [(some .contentLength, "5".data)] (.sized 5) [] false =
      .ok (.length 5,
        { isConnectMethod := false, isHeadMethod := true, closed := false, dateStr := [] },
        "\r\ncontent-length: 5\r\ndate: \r\n\r\n".data) ∧
    TransferCoding.encode (.length 5) "hello".data [] = (.length 0, "hello".data) := by
  constructor <;> rfl

/-- Claim C7 witness: concrete instances of the amended claim — a HEAD
response with one ordinary header and a `Sized 5` body gets
`content-length: 5` written yet `Eof` framing; with a `Stream` body it gets
`transfer-encoding: chunked`; with a `None` body no framing header. -/
theorem C7_head_framing_witness :
    (∃ ctx' buf' post,
      encodeHeaders
          { isConnectMethod := false, isHeadMethod := true, closed := false, dateStr := [] }
          [(some (.other "x-a"), "y".data)] (.sized 5) [] false = .ok (.eof, ctx', buf') ∧
      buf' = [] ++ impliedFramingHeader (.sized 5) ++ post ∧
      (∀ bytes wb, TransferCoding.encode .eof bytes wb = (.eof, wb)) ∧
      (∀ wb, TransferCoding.encode_eof .eof wb = wb)) ∧
    (∃ ctx' buf' post,
      encodeHeaders
          { isConnectMethod := false, isHeadMethod := true, closed := false, dateStr := [] }
          [] .stream [] false = .ok (.eof, ctx', buf') ∧
      buf' = [] ++ impliedFramingHeader .stream ++ post ∧
      (∀ bytes wb, TransferCoding.encode .eof bytes wb = (.eof, wb)) ∧
      (∀ wb, TransferCoding.encode_eof .eof wb = wb)) ∧
    (∃ ctx' buf' post,
      encodeHeaders
          { isConnectMethod := false, isHeadMethod := true, closed := false, dateStr := [] }
          [] .noneSize [] false = .ok (.eof, ctx', buf') ∧
      buf' = [] ++ impliedFramingHeader .noneSize ++ post ∧
      (∀ bytes wb, TransferCoding.encode .eof bytes wb = (.eof, wb)) ∧
      (∀ wb, TransferCoding.encode_eof .eof wb = wb)) := by
  refine ⟨?_, ?_, ?_⟩
  · exact C7_head_framing _ [(some (.other "x-a"), "y".data)] (.sized 5) [] rfl
      (by decide) (by decide)
  · exact C7_head_framing _ [] .stream [] rfl (by decide) (by decide)
  · exact C7_head_framing _ [] .noneSize [] rfl (by decide) (by decide)

theorem requestError_eq (ctx : EncCtx) (wbuf : Bytes) (s : Nat)
    (hs : s = 408 ∨ s = 431 ∨ s = 400) :
    requestError ctx wbuf s =
      ({ ctx with closed := true }, wbuf ++ canonicalErrorResponse s ctx.dateStr) := by
  obtain ⟨c1, c2, c3, d⟩ := ctx
  have h0 : Nat.toDigits 10 0 = [ '0' ] := rfl
  rcases hs with rfl | rfl | rfl <;> cases c2 <;>
    simp [h0, requestError, statusOnly, encodeHeadInner, skipLenDecision, isSuccess,
      isInformational, encodeHeaders, tryRemoveBody, containsKey, resolveNames,
      walkHeaders, writeLengthHeader, canonicalErrorResponse, encodeVersionStatusReason,
      canonicalReason, List.append_assoc]

/-- Claim C3: after the inner loop returns, `Err(KeepAliveExpire)` makes
the outer loop exit cleanly with no response bytes emitted and no shutdown
performed (conjunct 1); `Err(RequestTimeout)`, `Err(Proto(HeaderTooLarge))`
and `Err(Proto(_))` (any other protocol error) make it write the canonical
408 / 431 / 400 response into the write buffer, mark the connection for
close, drain the buffer to the transport and shut the transport down
(conjunct 2, under a write oracle that accepts the drain); conjuncts 3-5
spell the canonical responses out: status line, `content-length: 0`,
`connection: close` and the auto-inserted date header. -/
theorem C3_outer_error_responses (ctx : EncCtx) (wbuf : Bytes)
    (oracle : List (Except IoErr Nat)) :
    runStep ctx wbuf (.error .keepAliveExpire) oracle = (ctx, .exited [] false) ∧
    (∀ s e, ((e = RunError.requestTimeout ∧ s = 408) ∨
             (e = RunError.proto .headerTooLarge ∧ s = 431) ∨
             (∃ pe', pe' ≠ ProtoError.headerTooLarge ∧ e = RunError.proto pe' ∧ s = 400)) →
      writeBufDrain (wbuf ++ canonicalErrorResponse s ctx.dateStr) oracle = some (.ok, []) →
      runStep ctx wbuf (.error e) oracle =
        ({ ctx with closed := true },
         .exited (wbuf ++ canonicalErrorResponse s ctx.dateStr) true)) ∧
    (∀ d, canonicalErrorResponse 408 d =
      "HTTP/1.1 408 Request Timeout\r\ncontent-length: 0\r\nconnection: close\r\ndate: ".data ++
        d ++ "\r\n\r\n".data) ∧
    (∀ d, canonicalErrorResponse 431 d =
      ("HTTP/1.1 431 Request Header Fields Too Large" ++
        "\r\ncontent-length: 0\r\nconnection: close\r\ndate: ").data ++ d ++ "\r\n\r\n".data) ∧
    (∀ d, canonicalErrorResponse 400 d =
      "HTTP/1.1 400 Bad Request\r\ncontent-length: 0\r\nconnection: close\r\ndate: ".data ++
        d ++ "\r\n\r\n".data) := by
  refine ⟨rfl, ?_, fun d => rfl, fun d => rfl, fun d => rfl⟩
  intro s e hcase hdrain
  rcases hcase with ⟨rfl, rfl⟩ | ⟨rfl, rfl⟩ | ⟨pe', hne, rfl, rfl⟩
  · simp [runStep, requestError_eq ctx wbuf 408 (by simp), hdrain]
  · simp [runStep, requestError_eq ctx wbuf 431 (by simp), hdrain]
  · cases pe' <;> simp_all [runStep, requestError_eq ctx wbuf 400 (by simp), hdrain]

/-- Claim C3 witness: with an accepting transport (one 1000-byte write
completion), the three protocol failures produce exactly the canonical
408 / 431 / 400 wire bytes, close marked, transport shut down; a
keep-alive expiry exits with no bytes. -/
theorem C3_outer_error_responses_witness :
    runStep { isConnectMethod := false, isHeadMethod := false, closed := false, dateStr := [] }
        [] (.error .keepAliveExpire) [.ok 1000] =
      ({ isConnectMethod := false, isHeadMethod := false, closed := false, dateStr := [] },
       .exited [] false) ∧
    runStep { isConnectMethod := false, isHeadMethod := false, closed := false, dateStr := [] }
        [] (.error .requestTimeout) [.ok 1000] =
      ({ isConnectMethod := false, isHeadMethod := false, closed := true, dateStr := [] },
       .exited (canonicalErrorResponse 408 []) true) ∧
    runStep { isConnectMethod := false, isHeadMethod := false, closed := false, dateStr := [] }
        [] (.error (.proto .headerTooLarge)) [.ok 1000] =
      ({ isConnectMethod := false, isHeadMethod := false, closed := true, dateStr := [] },
       .exited (canonicalErrorResponse 431 []) true) ∧
    runStep { isConnectMethod := false, isHeadMethod := false, closed := false, dateStr := [] }
        [] (.error (.proto .badRequest)) [.ok 1000] =
      ({ isConnectMethod := false, isHeadMethod := false, closed := true, dateStr := [] },
       .exited (canonicalErrorResponse 400 []) true) := by
  refine ⟨(C3_outer_error_responses _ [] [.ok 1000]).1, ?_, ?_, ?_⟩
  · exact (C3_outer_error_responses _ [] [.ok 1000]).2.1 408 .requestTimeout
      (Or.inl ⟨rfl, rfl⟩) (by decide)
  · exact (C3_outer_error_responses _ [] [.ok 1000]).2.1 431 (.proto .headerTooLarge)
      (Or.inr (Or.inl ⟨rfl, rfl⟩)) (by decide)
  · exact (C3_outer_error_responses _ [] [.ok 1000]).2.1 400 (.proto .badRequest)
      (Or.inr (Or.inr ⟨.badRequest, by decide, rfl, rfl⟩)) (by decide)

theorem pump_over (W : Nat) (e : TransferCoding) (buf wire : Bytes) (ev : BodyPollEv)
    (rest : List BodyPollEv) (hb : ¬ buf.length < W) (hw : 0 < W) :
    pump W e buf wire (ev :: rest) =
      (.drained buf.length :: (pump W e [] (wire ++ buf) (ev :: rest)).1,
       (pump W e [] (wire ++ buf) (ev :: rest)).2) := by
  rw [pump.eq_def]; conv_rhs => rw [pump.eq_def]
  simp [hb, hw]
  cases ev <;> simp

theorem pump_stuck (W : Nat) (e : TransferCoding) (buf wire : Bytes) (ev : BodyPollEv)
    (rest : List BodyPollEv) (hb : ¬ buf.length < W) (hw : ¬ 0 < W) :
    (pump W e buf wire (ev :: rest)).1 = [.drained buf.length] := by
  rw [pump.eq_def]
  simp [hb, hw]

theorem pump_chunk (W : Nat) (e : TransferCoding) (buf wire s : Bytes)
    (rest : List BodyPollEv) (hb : buf.length < W) :
    pump W e buf wire (.chunk s :: rest) =
      (.polled buf.length .chunkK :: .enc (e.encode s buf).2.length ::
          (pump W (e.encode s buf).1 (e.encode s buf).2 wire rest).1,
       (pump W (e.encode s buf).1 (e.encode s buf).2 wire rest).2) := by
  rw [pump.eq_def]
  simp [hb]

theorem pump_done (W : Nat) (e : TransferCoding) (buf wire : Bytes)
    (rest : List BodyPollEv) (hb : buf.length < W) :
    pump W e buf wire (.done :: rest) =
      ([.polled buf.length .doneK, .encEof (e.encode_eof buf).length],
       e, e.encode_eof buf, wire) := by
  rw [pump.eq_def]
  simp [hb]

theorem pump_pend_zero (W : Nat) (e : TransferCoding) (wire : Bytes)
    (rest : List BodyPollEv) (hb : 0 < W) :
    pump W e [] wire (.pend :: rest) =
      (.polled 0 .pendK :: (pump W e [] wire rest).1, (pump W e [] wire rest).2) := by
  rw [pump.eq_def]
  simp [hb]

theorem pump_pend_ne (W : Nat) (e : TransferCoding) (buf wire : Bytes)
    (rest : List BodyPollEv) (hb : buf.length < W) (h0 : buf ≠ []) :
    pump W e buf wire (.pend :: rest) =
      (.polled buf.length .pendK :: .drained buf.length ::
          (pump W e [] (wire ++ buf) rest).1,
       (pump W e [] (wire ++ buf) rest).2) := by
  rw [pump.eq_def]
  simp [hb, h0]

theorem pump_polled_lt (W : Nat) (body : List BodyPollEv) :
    ∀ (e : TransferCoding) (buf wire : Bytes) (len : Nat) (k : PollKind),
      PumpEv.polled len k ∈ (pump W e buf wire body).1 → len < W := by
  induction body with
  | nil =>
    intro e buf wire len k h
    simp [pump] at h
  | cons ev rest ih =>
    have inner : ∀ (e : TransferCoding) (buf wire : Bytes) (len : Nat) (k : PollKind),
        buf.length < W → PumpEv.polled len k ∈ (pump W e buf wire (ev :: rest)).1 → len < W := by
      intro e buf wire len k hb h
      cases ev with
      | chunk s =>
        rw [pump_chunk W e buf wire s rest hb] at h
        simp at h
        rcases h with ⟨h1, -⟩ | h
        · omega
        · exact ih _ _ _ _ _ h
      | done =>
        rw [pump_done W e buf wire rest hb] at h
        simp at h
        obtain ⟨h1, -⟩ := h
        omega
      | pend =>
        by_cases h0 : buf = []
        · subst h0
          have hb' : 0 < W := by simpa using hb
          rw [pump_pend_zero W e wire rest hb'] at h
          simp at h
          rcases h with ⟨h1, -⟩ | h
          · omega
          · exact ih _ _ _ _ _ h
        · rw [pump_pend_ne W e buf wire rest hb h0] at h
          simp at h
          rcases h with ⟨h1, -⟩ | h
          · omega
          · exact ih _ _ _ _ _ h
    intro e buf wire len k h
    by_cases hb : buf.length < W
    · exact inner e buf wire len k hb h
    · by_cases hw : 0 < W
      · rw [pump_over W e buf wire ev rest hb hw] at h
        simp at h
        exact inner e [] (wire ++ buf) len k (by simpa using hw) h
      · rw [pump_stuck W e buf wire ev rest hb hw] at h
        simp at h

theorem pump_drainBeforeRepoll (W : Nat) (body : List BodyPollEv) :
    ∀ (e : TransferCoding) (buf wire : Bytes),
      drainBeforeRepoll W (decide (W ≤ buf.length)) (pump W e buf wire body).1 = true := by
  induction body with
  | nil =>
    intro e buf wire
    simp [pump, drainBeforeRepoll]
  | cons ev rest ih =>
    have inner : ∀ (e : TransferCoding) (buf wire : Bytes), buf.length < W →
        drainBeforeRepoll W false (pump W e buf wire (ev :: rest)).1 = true := by
      intro e buf wire hb
      cases ev with
      | chunk s =>
        rw [pump_chunk W e buf wire s rest hb]
        simp only [drainBeforeRepoll, Bool.not_false, Bool.true_and]
        simpa using ih (e.encode s buf).1 (e.encode s buf).2 wire
      | done =>
        rw [pump_done W e buf wire rest hb]
        simp [drainBeforeRepoll]
      | pend =>
        by_cases h0 : buf = []
        · subst h0
          have hb' : 0 < W := by simpa using hb
          rw [pump_pend_zero W e wire rest hb']
          simp only [drainBeforeRepoll, Bool.not_false, Bool.true_and]
          have hdec : decide (W ≤ (([] : Bytes)).length) = false := by
            simp [Nat.not_le]
            omega
          have := ih e [] wire
          rw [hdec] at this
          exact this
        · rw [pump_pend_ne W e buf wire rest hb h0]
          simp only [drainBeforeRepoll, Bool.not_false, Bool.true_and]
          have hb' : 0 < W := by omega
          have hdec : decide (W ≤ (([] : Bytes)).length) = false := by
            simp [Nat.not_le]
            omega
          have := ih e [] (wire ++ buf)
          rw [hdec] at this
          exact this
    intro e buf wire
    by_cases hb : buf.length < W
    · have hdec : decide (W ≤ buf.length) = false := by
        simp [Nat.not_le]
        exact hb
      rw [hdec]
      exact inner e buf wire hb
    · by_cases hw : 0 < W
      · rw [pump_over W e buf wire ev rest hb hw]
        simp only [drainBeforeRepoll]
        exact inner e [] (wire ++ buf) (by simpa using hw)
      · rw [pump_stuck W e buf wire ev rest hb hw]
        simp [drainBeforeRepoll]

theorem pump_pendDrains (W : Nat) (body : List BodyPollEv) :
    ∀ (e : TransferCoding) (buf wire : Bytes),
      pendDrains (pump W e buf wire body).1 = true := by
  induction body with
  | nil =>
    intro e buf wire
    simp [pump, pendDrains]
  | cons ev rest ih =>
    have inner : ∀ (e : TransferCoding) (buf wire : Bytes), buf.length < W →
        pendDrains (pump W e buf wire (ev :: rest)).1 = true := by
      intro e buf wire hb
      cases ev with
      | chunk s =>
        rw [pump_chunk W e buf wire s rest hb]
        simpa [pendDrains] using ih (e.encode s buf).1 (e.encode s buf).2 wire
      | done =>
        rw [pump_done W e buf wire rest hb]
        simp [pendDrains]
      | pend =>
        by_cases h0 : buf = []
        · subst h0
          have hb' : 0 < W := by simpa using hb
          rw [pump_pend_zero W e wire rest hb']
          simpa [pendDrains] using ih e [] wire
        · rw [pump_pend_ne W e buf wire rest hb h0]
          have hl : buf.length ≠ 0 := by
            simpa [List.length_eq_zero] using h0
          simpa [pendDrains, hl] using ih e [] (wire ++ buf)
    intro e buf wire
    by_cases hb : buf.length < W
    · exact inner e buf wire hb
    · by_cases hw : 0 < W
      · rw [pump_over W e buf wire ev rest hb hw]
        simpa [pendDrains] using inner e [] (wire ++ buf) (by simpa using hw)
      · rw [pump_stuck W e buf wire ev rest hb hw]
        simp [pendDrains]

/-- Claim C4 (amended): in the response-body pump, a body chunk is polled
(and hence encoded) only at buffer lengths strictly below `W`
(conjunct 1); once the length reaches or exceeds `W` a drain to the socket
happens before any further poll (conjunct 2, the scan starting from the
entry buffer); and a pending body with a non-empty buffer immediately
triggers a drain of that buffer (conjunct 3).  The buffer length is *not*
bounded by `W` between drains: the chunk encoded at a length just below
`W` may push it past `W` (see the counterexample), after which conjunct 2
forces a drain before polling resumes. -/
theorem C4_pump_backpressure (W : Nat) (body : List BodyPollEv)
    (e : TransferCoding) (buf wire : Bytes) :
    (∀ len k, PumpEv.polled len k ∈ (pump W e buf wire body).1 → len < W) ∧
    drainBeforeRepoll W (decide (W ≤ buf.length)) (pump W e buf wire body).1 = true ∧
    pendDrains (pump W e buf wire body).1 = true :=
  ⟨pump_polled_lt W body e buf wire,
   pump_drainBeforeRepoll W body e buf wire,
   pump_pendDrains W body e buf wire⟩

/-- Claim C4 counterexample, against "the write buffer length never
exceeds W between drains": with `W = 4`, an upgrade-framed body delivering
one 8-byte chunk is polled at length 0 and encoded to length 8 with no
drain anywhere in the trace, leaving 8 > 4 bytes in the buffer. -/
theorem C4_pump_backpressure_counterexample :
    (pump 4 .upgrade [] [] [ .chunk "aaaaaaaa".data ]).1 =
      [ .polled 0 .chunkK, .enc 8 ] ∧
    (pump 4 .upgrade [] [] [ .chunk "aaaaaaaa".data ]).2.2.1.length = 8 ∧
    ¬ 8 ≤ 4 := by
  refine ⟨rfl, rfl, by decide⟩

/-- Claim C4 witness: the amended claim evaluated on a concrete run
(`W = 4`, a 3-byte chunk, a pending poll with the non-empty buffer, a
6-byte chunk overshooting `W`, and a final pending poll): every polled
length in the trace is below 4, the drain-before-repoll scan and the
pending-drain scan both pass. -/
theorem C4_pump_backpressure_witness :
    (0 < 4 ∧
      PumpEv.polled 0 PollKind.chunkK ∈
        (pump 4 .upgrade [] [] [ .chunk "abc".data, .pend, .chunk "defach".data, .pend ]).1) ∧
    drainBeforeRepoll 4 (decide (4 ≤ (([] : Bytes)).length))
      (pump 4 .upgrade [] [] [ .chunk "abc".data, .pend, .chunk "defach".data, .pend ]).1 = true ∧
    pendDrains
      (pump 4 .upgrade [] [] [ .chunk "abc".data, .pend, .chunk "defach".data, .pend ]).1 = true := by
  refine ⟨⟨?_, ?_⟩, ?_, ?_⟩
  · exact (C4_pump_backpressure 4 [ .chunk "abc".data, .pend, .chunk "defach".data, .pend ]
      .upgrade [] []).1 0 .chunkK (by decide)
  · decide
  · exact (C4_pump_backpressure 4 [ .chunk "abc".data, .pend, .chunk "defach".data, .pend ]
      .upgrade [] []).2.1
  · exact (C4_pump_backpressure 4 [ .chunk "abc".data, .pend, .chunk "defach".data, .pend ]
      .upgrade [] []).2.2

theorem innerLoop_eof (st : LoopSt) (r : ReqScript) (rest : List ReqScript)
    (he : r.decodedCoding.is_eof = true) :
    innerLoop st (r :: rest) =
      (.decodeHead :: .dispatchEof :: (innerLoop st rest).1, (innerLoop st rest).2) := by
  simp [innerLoop, he]

theorem innerLoop_body_some (st : LoopSt) (r : ReqScript) (rest : List ReqScript)
    (he : r.decodedCoding.is_eof = false) (hd : r.dropCoding.is_eof = true) :
    innerLoop st (r :: rest) =
      (.decodeHead :: .dispatchBody :: .waitSome r.bufAtDrop ::
          (innerLoop { st with readBuf := r.bufAtDrop } rest).1,
       (innerLoop { st with readBuf := r.bufAtDrop } rest).2) := by
  simp [innerLoop, he, decoderDrop, hd, notifierNotify, notifierDrop,
    NotifyState.fresh, notifyWaitPoll]

theorem innerLoop_body_none (st : LoopSt) (r : ReqScript) (rest : List ReqScript)
    (he : r.decodedCoding.is_eof = false) (hd : r.dropCoding.is_eof = false) :
    innerLoop st (r :: rest) =
      ([.decodeHead, .dispatchBody, .waitNone], { readBuf := [], close := true }) := by
  simp [innerLoop, he, decoderDrop, hd, notifierNotify, notifierDrop,
    NotifyState.fresh, notifyWaitPoll]

/-- Claim C2: the read-buffer handoff discipline of the inner dispatch
loop.  Conjunct 1: at `BodyStream` drop, the `Decoder` deposits its read
buffer into the rendezvous exactly when its `TransferCoding` is at EOF.
Conjunct 2: in every trace of the loop, no head is decoded between the
dispatch of a request with non-EOF framing and the resolution of the
rendezvous wait.  Conjunct 3: when the dropped decoder was at EOF the wait
resolves to `some buf`, the dispatcher reinstalls `buf` as its read buffer
and the pipelining loop continues.  Conjunct 4: otherwise the wait
resolves to `none`, the dispatcher sets the close flag and breaks — the
block's trace ends at `waitNone`, so no further head is decoded on the
connection. -/
theorem C2_pipelining_rendezvous (st : LoopSt) (script : List ReqScript) :
    (∀ (d : TransferCoding) (b : Bytes) (n : NotifyState Bytes), n.inner.val = none →
      ((decoderDrop d b n).inner.val = some b ↔ d.is_eof = true)) ∧
    noHeadBeforeWaitResolved false (innerLoop st script).1 = true ∧
    (∀ r rest, r.decodedCoding.is_eof = false → r.dropCoding.is_eof = true →
      innerLoop st (r :: rest) =
        (.decodeHead :: .dispatchBody :: .waitSome r.bufAtDrop ::
            (innerLoop { st with readBuf := r.bufAtDrop } rest).1,
         (innerLoop { st with readBuf := r.bufAtDrop } rest).2)) ∧
    (∀ r rest, r.decodedCoding.is_eof = false → r.dropCoding.is_eof = false →
      innerLoop st (r :: rest) =
        ([.decodeHead, .dispatchBody, .waitNone], { readBuf := [], close := true })) := by
  refine ⟨?_, ?_, fun r rest he hd => innerLoop_body_some st r rest he hd,
    fun r rest he hd => innerLoop_body_none st r rest he hd⟩
  · intro d b n hv
    by_cases hd : d.is_eof = true
    · simp [decoderDrop, hd, notifierNotify]
    · simp [decoderDrop, hd, hv]
  · induction script generalizing st with
    | nil => rfl
    | cons r rest ih =>
      by_cases he : r.decodedCoding.is_eof = true
      · rw [innerLoop_eof st r rest he]
        simpa [noHeadBeforeWaitResolved] using ih st
      · by_cases hd : r.dropCoding.is_eof = true
        · rw [innerLoop_body_some st r rest (by simpa using he) hd]
          simpa [noHeadBeforeWaitResolved] using ih { st with readBuf := r.bufAtDrop }
        · rw [innerLoop_body_none st r rest (by simpa using he) (by simpa using hd)]
          simp [noHeadBeforeWaitResolved]

/-- Claim C2 witness: a two-request script — a body request whose decoder
reaches EOF (buffer `"ab"` deposited, wait resolves `some`, buffer
reinstalled, loop continues into an EOF-framed request) — and a one-request
script whose body is dropped before EOF (wait resolves `none`, close set,
loop broken); the deposit-iff-EOF equivalence checked on both decoder
states; the no-head-before-wait scan passes on the two-request trace. -/
theorem C2_pipelining_rendezvous_witness :
    ((decoderDrop .eof "ab".data (NotifyState.fresh Bytes)).inner.val = some "ab".data ↔
      TransferCoding.is_eof .eof = true) ∧
    noHeadBeforeWaitResolved false
      (innerLoop { readBuf := [], close := false }
        [ { decodedCoding := .length 5, dropCoding := .eof, bufAtDrop := "ab".data },
          { decodedCoding := .eof, dropCoding := .eof, bufAtDrop := [] } ]).1 = true ∧
    innerLoop { readBuf := [], close := false }
        [ { decodedCoding := .length 5, dropCoding := .eof, bufAtDrop := "ab".data } ] =
      ([.decodeHead, .dispatchBody, .waitSome "ab".data],
       { readBuf := "ab".data, close := false }) ∧
    innerLoop { readBuf := [], close := false }
        [ { decodedCoding := .length 5, dropCoding := .length 2, bufAtDrop := [] } ] =
      ([.decodeHead, .dispatchBody, .waitNone], { readBuf := [], close := true }) := by
  refine ⟨?_, ?_, ?_, ?_⟩
  · exact (C2_pipelining_rendezvous { readBuf := [], close := false } []).1
      .eof "ab".data (NotifyState.fresh Bytes) rfl
  · exact (C2_pipelining_rendezvous { readBuf := [], close := false }
      [ { decodedCoding := .length 5, dropCoding := .eof, bufAtDrop := "ab".data },
        { decodedCoding := .eof, dropCoding := .eof, bufAtDrop := [] } ]).2.1
  · have h := (C2_pipelining_rendezvous { readBuf := [], close := false } []).2.2.1
      { decodedCoding := .length 5, dropCoding := .eof, bufAtDrop := "ab".data } [] rfl rfl
    simpa [innerLoop] using h
  · exact (C2_pipelining_rendezvous { readBuf := [], close := false } []).2.2.2
      { decodedCoding := .length 5, dropCoding := .length 2, bufAtDrop := [] } [] rfl rfl
